import Mathlib

/-!
Shallow embedding of the Arrow IPC file writer
(`crates/polars-arrow/src/io/ipc/write/writer.rs`).

The writer's own logic (lifecycle state machine, block bookkeeping,
running offset, footer assembly order) is translated directly from the
source.  Collaborators that live outside the excerpt
(`write_message` / `write_continuation` from `common_sync`,
`schema_to_bytes` / `serialize_schema` from the schema module, the
planus table `Builder`, and `encode_chunk_amortized` from `common`)
are modelled from the specification, each marked with a doc comment
starting `Modelled from the spec:`.

Bytes are modelled as `List Nat`; the sink is the list of bytes written
so far.  Machine-integer casts that the source performs when building
`Block` values (`usize as i64`, `usize as i32`) are modelled as
`Int.ofNat`, which agrees with the source casts in the regime where the
counters fit the target types (sizes below 2^31 / 2^63); the 4-byte
little-endian footer length is modelled exactly, byte by byte.
-/

namespace ArrowIpcWrite

/-- The four little-endian bytes of a 32-bit value; for any `n : Nat` this
equals the bytes `(n as i32).to_le_bytes()` produces in the source, since
two's-complement truncation and byte extraction commute. -/
def le32 (n : Nat) : List Nat :=
  [n % 256, n / 256 % 256, n / 2 ^ 16 % 256, n / 2 ^ 24 % 256]

/-- The eight little-endian bytes of a 64-bit value. -/
def le64 (n : Nat) : List Nat :=
  [n % 256, n / 256 % 256, n / 2 ^ 16 % 256, n / 2 ^ 24 % 256,
   n / 2 ^ 32 % 256, n / 2 ^ 40 % 256, n / 2 ^ 48 % 256, n / 2 ^ 56 % 256]

/-- Round a byte count up to the format's fixed 8-byte alignment. -/
def pad8 (n : Nat) : Nat := (n + 7) / 8 * 8

/-- Pad a byte string with zero bytes up to the 8-byte alignment boundary. -/
def padTo8 (l : List Nat) : List Nat :=
  l ++ List.replicate (pad8 l.length - l.length) 0

/-- Modelled from the spec: the format's fixed magic token (`ARROW1`,
six bytes); the source imports it as `ARROW_MAGIC_V2`. -/
def ARROW_MAGIC_V2 : List Nat := [65, 82, 82, 79, 87, 49]

/-- `EncodedData` from `write/common.rs`: a pair of byte buffers, the
self-describing message header (`ipc_message`) and the raw column data
(`arrow_data`). -/
structure EncodedData where
  ipc_message : List Nat
  arrow_data : List Nat
deriving DecidableEq

/-- `Default::default()` for `EncodedData`: two empty buffers. -/
def EncodedData.empty : EncodedData := ⟨[], []⟩

/-- Modelled from the spec: the metadata byte count the Message Framer
reports, padding included — a length-prefixed header (continuation
sentinel + 4-byte length) followed by the metadata bytes rounded up to
the 8-byte alignment. -/
def writeMessageMeta (e : EncodedData) : Nat := 8 + pad8 e.ipc_message.length

/-- Modelled from the spec: the body byte count the Message Framer
reports — the body bytes rounded up to the 8-byte alignment. -/
def writeMessageData (e : EncodedData) : Nat := pad8 e.arrow_data.length

/-- Modelled from the spec: the bytes `write_message` emits for one
framed message — continuation sentinel, 4-byte little-endian metadata
length, padded metadata bytes, padded body bytes. -/
def writeMessageBytes (e : EncodedData) : List Nat :=
  [255, 255, 255, 255] ++ le32 (pad8 e.ipc_message.length) ++
    padTo8 e.ipc_message ++ padTo8 e.arrow_data

/-- Modelled from the spec: `write_continuation` emits the fixed 4-byte
sentinel carrying the given length; at end-of-stream the source passes
`0`, so the marker is four zero bytes. -/
def write_continuation (total_len : Nat) : List Nat := le32 total_len

/-- `arrow_format::ipc::Block`: `{offset: i64, meta_data_length: i32,
body_length: i64}`.  The source fills it with `usize as i64` /
`usize as i32` casts. -/
structure Block where
  offset : Int
  meta_data_length : Int
  body_length : Int
deriving DecidableEq

/-- Schema-level key-value metadata, abstracted to numbered keys/values. -/
abbrev Metadata := List (Nat × Nat)

/-- The schema, abstracted to its ordered sequence of field descriptors. -/
abbrev Schema := List Nat

/-- Per-field IPC auxiliary info (dictionary identifiers and the like). -/
abbrev IpcField := Nat

/-- Modelled from the spec: the default per-field mapping is derived
deterministically from the schema's fields. -/
def default_ipc_fields (s : Schema) : List IpcField := s

/-- `WriteOptions`: whether (and how) to compress bodies; opaque here. -/
structure WriteOptions where
  compression : Option Nat
deriving DecidableEq

/-- Modelled from the spec: the schema-encoding collaborator
`encode(schema, fieldMapping, customMetadata) -> bytes`.  Deterministic
and metadata-sensitive: the optional custom metadata, when present, is
embedded in the produced bytes. -/
def schema_to_bytes (s : Schema) (f : List IpcField) (md : Option Metadata) : List Nat :=
  [s.length] ++ s ++ [f.length] ++ f ++
    (match md with
     | none => [0]
     | some m => [1, m.length] ++ m.flatMap (fun p => [p.1, p.2]))

/-- The schema value placed inside the footer (`schema::serialize_schema`
builds it); it carries the custom metadata passed to it. -/
structure SerializedSchema where
  fields : Schema
  ipc_fields : List IpcField
  custom_metadata : Option Metadata
deriving DecidableEq

/-- Modelled from the spec: `serialize_schema` assembles the footer's
schema value from the schema, the field mapping and the optional custom
metadata, embedding the metadata it is given. -/
def serialize_schema (s : Schema) (f : List IpcField) (md : Option Metadata) :
    SerializedSchema := ⟨s, f, md⟩

/-- `arrow_format::ipc::MetadataVersion::V5` as a numeric tag. -/
def metadataVersionV5 : Nat := 5

/-- `arrow_format::ipc::Footer`: version, schema, the two block tables
and optional footer-level custom metadata. -/
structure Footer where
  version : Nat
  schema : Option SerializedSchema
  dictionaries : Option (List Block)
  record_batches : Option (List Block)
  custom_metadata : Option Metadata
deriving DecidableEq

/-- One block, serialized for the footer (offset, metadata length, body
length in their little-endian machine widths). -/
def encodeBlock (b : Block) : List Nat :=
  le64 ((b.offset % (2 ^ 64 : Int)).toNat) ++
    le32 ((b.meta_data_length % (2 ^ 32 : Int)).toNat) ++
    le64 ((b.body_length % (2 ^ 64 : Int)).toNat)

/-- Modelled from the spec: the opaque table encoder
(`Builder::finish`), a deterministic `footerValue -> bytes` function. -/
def encodeFooter (f : Footer) : List Nat :=
  [f.version] ++
    (match f.schema with
     | none => [0]
     | some s => [1] ++ schema_to_bytes s.fields s.ipc_fields s.custom_metadata) ++
    (match f.dictionaries with
     | none => [0]
     | some bs => [1, bs.length] ++ bs.flatMap encodeBlock) ++
    (match f.record_batches with
     | none => [0]
     | some bs => [1, bs.length] ++ bs.flatMap encodeBlock) ++
    (match f.custom_metadata with
     | none => [0]
     | some m => [1, m.length] ++ m.flatMap (fun p => [p.1, p.2]))

/-- `DictionaryTracker` from `write/common.rs`: the fingerprints of the
dictionaries written so far (an association list, most recent first)
plus the replacement-policy flag. -/
structure DictionaryTracker where
  dictionaries : List (Nat × Nat)
  cannot_replace : Bool
deriving DecidableEq

/-- Look a dictionary id up in the tracker's association list. -/
def lookupDict (l : List (Nat × Nat)) (id : Nat) : Option Nat :=
  (l.find? (fun p => p.1 == id)).map Prod.snd

/-- A column of a record batch: optionally dictionary-encoded (id and
content fingerprint) plus its values. -/
structure Column where
  dict : Option (Nat × Nat)
  values : List Nat
deriving DecidableEq

/-- `RecordBatchT`: the ordered columns of one batch. -/
abbrev Chunk := List Column

/-- Modelled from the spec: the encoded message for one dictionary
payload, a deterministic function of the dictionary id and content. -/
def dictMessage (id fp : Nat) : EncodedData := ⟨[id, fp], [fp]⟩

/-- Modelled from the spec: the encoded record-batch message — a
deterministic function of the batch, the field mapping and the options
only; the scratch buffer it is written into never influences it. -/
def recordMessage (chunk : Chunk) (fields : List IpcField) (opts : WriteOptions) :
    EncodedData :=
  ⟨[chunk.length] ++ fields ++
     [match opts.compression with | none => 0 | some c => 1 + c],
   chunk.flatMap Column.values⟩

/-- `PolarsError`, restricted to the two variants this writer raises:
out-of-spec sequencing errors and dictionary-policy violations. -/
inductive PolarsError
  | oos (msg : String)
  | invalidOperation (msg : String)
deriving DecidableEq

/-- The sequencing error `start` raises when the file was already started. -/
def oosStartMsg : String := "The IPC file can only be started once"

/-- The sequencing error `write` and `write_encoded` raise before `start`. -/
def oosWriteMsg : String :=
  "The IPC file must be started before it can be written to. Call `start` before `write`"

/-- The sequencing error `finish` raises when the file is not started. -/
def oosFinishMsg : String :=
  "The IPC file must be started before it can be finished. Call `start` before `finish`"

/-- The dictionary-policy violation raised when a previously-seen
dictionary id reappears with different content under `cannot_replace`. -/
def dictPolicyErrMsg : String :=
  "Dictionary replacement detected when writing IPC file format. Arrow IPC files only support a single dictionary for a given field across all batches."

/-- Modelled from the spec: the per-column dictionary emission decision
(spec section 4.3).  Walks the batch's columns in order; unseen ids are
emitted and recorded, unchanged ids are skipped, changed ids fail under
`cannot_replace` and are re-emitted (fingerprint updated) otherwise.
Returns the dictionary messages in emission order, the tracker's final
association list, and the error if the policy was violated. -/
def emitDictionaries (cannotReplace : Bool) :
    List (Nat × Nat) → List Column →
      List EncodedData × List (Nat × Nat) × Option PolarsError
  | dicts, [] => ([], dicts, none)
  | dicts, col :: rest =>
    match col.dict with
    | none => emitDictionaries cannotReplace dicts rest
    | some (id, fp) =>
      match lookupDict dicts id with
      | none =>
        let r := emitDictionaries cannotReplace ((id, fp) :: dicts) rest
        (dictMessage id fp :: r.1, r.2)
      | some fp2 =>
        if fp2 = fp then emitDictionaries cannotReplace dicts rest
        else if cannotReplace then
          ([], dicts, some (PolarsError.invalidOperation dictPolicyErrMsg))
        else
          let r := emitDictionaries cannotReplace ((id, fp) :: dicts) rest
          (dictMessage id fp :: r.1, r.2)

/-- Modelled from the spec: `encode_chunk_amortized` — produces the
dictionary messages this batch must carry, the record-batch message
(written into the scratch buffer, overwriting it), the updated tracker,
and the dictionary-policy error if one occurred. -/
def encode_chunk_amortized (chunk : Chunk) (fields : List IpcField)
    (tracker : DictionaryTracker) (opts : WriteOptions) :
    List EncodedData × EncodedData × DictionaryTracker × Option PolarsError :=
  let r := emitDictionaries tracker.cannot_replace tracker.dictionaries chunk
  (r.1, recordMessage chunk fields opts, ⟨r.2.1, tracker.cannot_replace⟩, r.2.2)

/-- `State` from `writer.rs`: `None | Started | Finished`. -/
inductive State
  | None
  | Started
  | Finished
deriving DecidableEq

/-- `FileWriter` from `writer.rs`.  The opaque sink `W` is modelled as
the list of bytes written to it so far. -/
structure FileWriter where
  sink : List Nat
  options : WriteOptions
  schema : Schema
  ipc_fields : List IpcField
  block_offsets : Nat
  dictionary_blocks : List Block
  record_blocks : List Block
  state : State
  dictionary_tracker : DictionaryTracker
  encoded_message : EncodedData
  custom_schema_metadata : Option Metadata
deriving DecidableEq

/-- `FileWriter::new`: fresh writer over the given sink; the tracker is
built with `cannot_replace: true`. -/
def FileWriter.new (sink : List Nat) (schema : Schema)
    (ipc_fields : Option (List IpcField)) (options : WriteOptions) : FileWriter :=
  { sink := sink
    options := options
    schema := schema
    ipc_fields := ipc_fields.getD (default_ipc_fields schema)
    block_offsets := 0
    dictionary_blocks := []
    record_blocks := []
    state := State.None
    dictionary_tracker := { dictionaries := [], cannot_replace := true }
    encoded_message := EncodedData.empty
    custom_schema_metadata := none }

/-- `FileWriter::into_inner`: surrender the sink. -/
def FileWriter.into_inner (w : FileWriter) : List Nat := w.sink

/-- `FileWriter::get_scratches`: `std::mem::take(&mut self.encoded_message)` —
hand the scratch buffer to the caller, leaving the default (empty) one. -/
def FileWriter.get_scratches (w : FileWriter) : EncodedData × FileWriter :=
  (w.encoded_message, { w with encoded_message := EncodedData.empty })

/-- `FileWriter::set_scratches`: install a caller-supplied scratch buffer. -/
def FileWriter.set_scratches (w : FileWriter) (scratches : EncodedData) : FileWriter :=
  { w with encoded_message := scratches }

/-- The schema message `start` frames: `schema_to_bytes` with no custom
metadata (the source passes `None` there, deferring metadata to the
footer) and an empty body. -/
def schemaMessage (w : FileWriter) : EncodedData :=
  ⟨schema_to_bytes w.schema w.ipc_fields none, []⟩

/-- `FileWriter::start`: magic, two pad bytes, framed schema message;
offset advanced by the framed bytes plus 8; state to `Started`.
Returns the post-state paired with the error, if any (`&mut self`
mutation is modelled by returning the writer). -/
def FileWriter.start (w : FileWriter) : FileWriter × Option PolarsError :=
  if w.state ≠ State.None then
    (w, some (PolarsError.oos oosStartMsg))
  else
    let encoded_message := schemaMessage w
    let meta := writeMessageMeta encoded_message
    let data := writeMessageData encoded_message
    ({ w with
        sink := w.sink ++ ARROW_MAGIC_V2 ++ [0, 0] ++ writeMessageBytes encoded_message
        block_offsets := w.block_offsets + (meta + data + 8)
        state := State.Started }, none)

/-- `FileWriter::write_encoded_record_batch`: frame the record message,
append a record Block at the current offset, advance the offset.  The
source performs no state check here. -/
def FileWriter.write_encoded_record_batch (w : FileWriter)
    (encoded_message : EncodedData) : FileWriter × Option PolarsError :=
  let meta := writeMessageMeta encoded_message
  let data := writeMessageData encoded_message
  let block : Block :=
    ⟨(w.block_offsets : Int), (meta : Int), (data : Int)⟩
  ({ w with
      sink := w.sink ++ writeMessageBytes encoded_message
      record_blocks := w.record_blocks ++ [block]
      block_offsets := w.block_offsets + (meta + data) }, none)

/-- The dictionary loop of `write_encoded`: frame each dictionary
message in order, appending a dictionary Block at the offset current at
its framing and advancing the offset by the frame's total size. -/
def writeDictLoop : FileWriter → List EncodedData → FileWriter
  | w, [] => w
  | w, e :: rest =>
    let meta := writeMessageMeta e
    let data := writeMessageData e
    let block : Block :=
      ⟨(w.block_offsets : Int), (meta : Int), (data : Int)⟩
    writeDictLoop
      { w with
          sink := w.sink ++ writeMessageBytes e
          dictionary_blocks := w.dictionary_blocks ++ [block]
          block_offsets := w.block_offsets + (meta + data) } rest

/-- `FileWriter::write_encoded`: state check, dictionary loop, then
`write_encoded_record_batch`. -/
def FileWriter.write_encoded (w : FileWriter)
    (encoded_dictionaries : List EncodedData) (encoded_message : EncodedData) :
    FileWriter × Option PolarsError :=
  if w.state ≠ State.Started then
    (w, some (PolarsError.oos oosWriteMsg))
  else
    (writeDictLoop w encoded_dictionaries).write_encoded_record_batch encoded_message

/-- `FileWriter::write`: state check; encode the batch (updating the
tracker and overwriting the scratch with the record message); take the
scratch, `write_encoded`, put the scratch back. -/
def FileWriter.write (w : FileWriter) (chunk : Chunk)
    (ipc_fields : Option (List IpcField)) : FileWriter × Option PolarsError :=
  if w.state ≠ State.Started then
    (w, some (PolarsError.oos oosWriteMsg))
  else
    let fields := ipc_fields.getD w.ipc_fields
    match encode_chunk_amortized chunk fields w.dictionary_tracker w.options with
    | (_, _, tracker2, some e) =>
      ({ w with dictionary_tracker := tracker2 }, some e)
    | (dicts, record, tracker2, none) =>
      let w1 := { w with
                    dictionary_tracker := tracker2
                    encoded_message := EncodedData.empty }
      let r := w1.write_encoded dicts record
      ({ r.1 with encoded_message := record }, r.2)

/-- The footer value `finish` assembles: version V5, the serialized
schema carrying the writer's custom metadata, the two accumulated block
tables, and no footer-level custom metadata. -/
def footerOf (w : FileWriter) : Footer :=
  { version := metadataVersionV5
    schema := some (serialize_schema w.schema w.ipc_fields w.custom_schema_metadata)
    dictionaries := some w.dictionary_blocks
    record_batches := some w.record_blocks
    custom_metadata := none }

/-- `FileWriter::finish`: state check; end-of-stream marker; footer
bytes; 4-byte little-endian footer length; magic; flush (a no-op on the
byte-list sink); state to `Finished`.  The block tables are taken
(`std::mem::take`) into the footer, leaving them empty. -/
def FileWriter.finish (w : FileWriter) : FileWriter × Option PolarsError :=
  if w.state ≠ State.Started then
    (w, some (PolarsError.oos oosFinishMsg))
  else
    let footer_data := encodeFooter (footerOf w)
    ({ w with
        sink := w.sink ++ write_continuation 0 ++ footer_data ++
          le32 footer_data.length ++ ARROW_MAGIC_V2
        dictionary_blocks := []
        record_blocks := []
        state := State.Finished }, none)

/-- `FileWriter::set_custom_schema_metadata`: unconditionally store the
metadata; the source performs no state check and cannot fail. -/
def FileWriter.set_custom_schema_metadata (w : FileWriter)
    (custom_metadata : Metadata) : FileWriter :=
  { w with custom_schema_metadata := some custom_metadata }

/-- `FileWriter::try_new`: `new` followed by `start`. -/
def FileWriter.try_new (sink : List Nat) (schema : Schema)
    (ipc_fields : Option (List IpcField)) (options : WriteOptions) :
    FileWriter × Option PolarsError :=
  (FileWriter.new sink schema ipc_fields options).start

/-- One invocation of a public mutating operation of the writer. -/
inductive Op
  | start
  | write (chunk : Chunk) (fields : Option (List IpcField))
  | writeEncoded (dicts : List EncodedData) (msg : EncodedData)
  | writeEncodedRecordBatch (msg : EncodedData)
  | finish
  | setCustomSchemaMetadata (md : Metadata)
  | getScratches
  | setScratches (e : EncodedData)
deriving DecidableEq

/-- Apply one operation, returning the post-state and the error, if any. -/
def applyOp (w : FileWriter) : Op → FileWriter × Option PolarsError
  | Op.start => w.start
  | Op.write c f => w.write c f
  | Op.writeEncoded ds m => w.write_encoded ds m
  | Op.writeEncodedRecordBatch m => w.write_encoded_record_batch m
  | Op.finish => w.finish
  | Op.setCustomSchemaMetadata md => (w.set_custom_schema_metadata md, none)
  | Op.getScratches => ((w.get_scratches).2, none)
  | Op.setScratches e => (w.set_scratches e, none)

/-- Run a sequence of operations (each Rust call site keeps the writer
whether or not the call errored, so the post-state is threaded through
regardless). -/
def run (w : FileWriter) : List Op → FileWriter
  | [] => w
  | op :: ops => run (applyOp w op).1 ops

/-- Total framed size of one encoded message: metadata plus body, as the
framer reports them. -/
def framedSize (e : EncodedData) : Nat := writeMessageMeta e + writeMessageData e

/-- Total framed size of a list of encoded messages. -/
def totalFramedSize (es : List EncodedData) : Nat := (es.map framedSize).sum

/-- Concatenation of the framed bytes of a list of encoded messages, in
list order. -/
def framedConcat (es : List EncodedData) : List Nat := es.flatMap writeMessageBytes

/-- The blocks generated when framing a list of messages starting at a
given running offset: each block records the offset current at the
moment of framing, and the offset advances by the frame's total size. -/
def dictBlocksSpec : Nat → List EncodedData → List Block
  | _, [] => []
  | off, e :: rest =>
    ⟨(off : Int), (writeMessageMeta e : Int), (writeMessageData e : Int)⟩ ::
      dictBlocksSpec (off + framedSize e) rest

/-- The running-offset invariant: the offset counter equals the number
of bytes written to the sink. -/
def OffsetInv (w : FileWriter) : Prop := w.block_offsets = w.sink.length

/-- End position of a block: offset plus metadata length plus body length. -/
def blockEnd (b : Block) : Int := b.offset + b.meta_data_length + b.body_length

/-- The no-overlap/strict-increase property over a dictionary table and
a record table: any two recorded blocks with ordered offsets do not
overlap, each table is strictly sorted by offset (its own write order),
and no offset is shared between the tables — hence in the interleaved
write order the offsets are strictly increasing and each block ends no
later than the next one's offset. -/
def SepT (dict rec : List Block) : Prop :=
  (∀ b1 ∈ dict ++ rec, ∀ b2 ∈ dict ++ rec,
      b1.offset < b2.offset → blockEnd b1 ≤ b2.offset) ∧
  dict.Pairwise (fun a b => a.offset < b.offset) ∧
  rec.Pairwise (fun a b => a.offset < b.offset) ∧
  (∀ b1 ∈ dict, ∀ b2 ∈ rec, b1.offset ≠ b2.offset)

/-- Every recorded block has positive metadata length, nonnegative body
length, and ends at or before the current running offset. -/
def BoundT (dict rec : List Block) (cur : Nat) : Prop :=
  ∀ b ∈ dict ++ rec,
    0 < b.meta_data_length ∧ 0 ≤ b.body_length ∧ blockEnd b ≤ (cur : Int)

/-- The inductive block-table invariant. -/
def BlocksInvT (dict rec : List Block) (cur : Nat) : Prop :=
  SepT dict rec ∧ BoundT dict rec cur

/-- `SepT` read off a writer's two block tables. -/
def BlocksSeparated (w : FileWriter) : Prop :=
  SepT w.dictionary_blocks w.record_blocks

/-- `BlocksInvT` read off a writer. -/
def BlocksInv (w : FileWriter) : Prop :=
  BlocksInvT w.dictionary_blocks w.record_blocks w.block_offsets

/-- Two writers that agree on everything except the scratch buffer. -/
def eqExceptScratch (w w' : FileWriter) : Prop :=
  { w with encoded_message := EncodedData.empty } =
    { w' with encoded_message := EncodedData.empty }

/-- A small concrete schema used by witnesses and counterexamples. -/
def sampleSchema : Schema := [1, 2]

/-- Concrete write options used by witnesses and counterexamples. -/
def sampleOptions : WriteOptions := ⟨none⟩

/-- Concrete custom schema metadata. -/
def sampleMetadata : Metadata := [(3, 4)]

/-- A concrete fresh writer over an empty sink. -/
def w0 : FileWriter := FileWriter.new [] sampleSchema none sampleOptions

/-- The concrete writer after `start`. -/
def wStarted : FileWriter := (w0.start).1

/-- The concrete writer after `start` and `finish`. -/
def wFinished : FileWriter := (wStarted.finish).1

/-- A concrete encoded record-batch message. -/
def sampleMsg : EncodedData := ⟨[7], [9]⟩

/-- A concrete encoded dictionary message. -/
def sampleDict : EncodedData := ⟨[5], [6]⟩

/-- A concrete batch whose single column uses dictionary id 1 with
content fingerprint 5. -/
def sampleChunkDict5 : Chunk := [⟨some (1, 5), [5]⟩]

/-- A concrete batch whose single column uses dictionary id 1 with the
changed content fingerprint 6. -/
def sampleChunkDict6 : Chunk := [⟨some (1, 6), [6]⟩]

/-- The concrete writer after `start` and one `write` of the
dictionary-bearing batch. -/
def wDict : FileWriter := (wStarted.write sampleChunkDict5 none).1

/-- The concrete fresh writer with custom schema metadata attached. -/
def wMeta : FileWriter := w0.set_custom_schema_metadata sampleMetadata

theorem pad8_ge (n : Nat) : n ≤ pad8 n := by
  unfold pad8; omega

theorem padTo8_length (l : List Nat) : (padTo8 l).length = pad8 l.length := by
  have h := pad8_ge l.length
  simp [padTo8]
  omega

theorem writeMessageBytes_length (e : EncodedData) :
    (writeMessageBytes e).length = writeMessageMeta e + writeMessageData e := by
  simp [writeMessageBytes, writeMessageMeta, writeMessageData, le32, padTo8_length]
  omega

theorem writeMessageMeta_pos (e : EncodedData) : 0 < writeMessageMeta e := by
  simp [writeMessageMeta]

theorem framedConcat_length (ds : List EncodedData) :
    (framedConcat ds).length = totalFramedSize ds := by
  induction ds with
  | nil => simp [framedConcat, totalFramedSize]
  | cons e rest ih =>
    simp [framedConcat, totalFramedSize, framedSize] at ih ⊢
    simp [writeMessageBytes_length, ih, framedSize]

theorem start_ok (w : FileWriter) (h : w.state = State.None) :
    w.start =
      ({ w with
          sink := w.sink ++ ARROW_MAGIC_V2 ++ [0, 0] ++
            writeMessageBytes (schemaMessage w)
          block_offsets := w.block_offsets +
            ((writeMessageBytes (schemaMessage w)).length + 8)
          state := State.Started }, none) := by
  simp [FileWriter.start, h, writeMessageBytes_length]

/-- C1 (amended): `start`, `write`, `write_encoded` and `finish` check
the lifecycle state before touching the sink and, in a forbidden state,
fail with the sequencing error while leaving the writer — sink, state,
RunningOffset and both block tables — completely unchanged;
`write_encoded_record_batch`, by contrast, performs no state check and
never fails. -/
theorem c1_lifecycle_guards (w : FileWriter) :
    (w.state ≠ State.None → w.start = (w, some (PolarsError.oos oosStartMsg))) ∧
    (w.state ≠ State.Started →
      (∀ c f, w.write c f = (w, some (PolarsError.oos oosWriteMsg))) ∧
      (∀ ds m, w.write_encoded ds m = (w, some (PolarsError.oos oosWriteMsg))) ∧
      w.finish = (w, some (PolarsError.oos oosFinishMsg))) ∧
    (∀ m, (w.write_encoded_record_batch m).2 = none) := by
  refine ⟨fun h => ?_, fun h => ⟨fun c f => ?_, fun ds m => ?_, ?_⟩, fun m => ?_⟩
  · simp [FileWriter.start, h]
  · simp [FileWriter.write, h]
  · simp [FileWriter.write_encoded, h]
  · simp [FileWriter.finish, h]
  · simp [FileWriter.write_encoded_record_batch]

/-- C1 counterexample: the public mutating operation
`write_encoded_record_batch`, invoked on a Finished writer, does not
fail with a sequencing error; it writes to the sink and extends the
record block table. -/
theorem c1_counterexample :
    wFinished.state = State.Finished ∧
    (wFinished.write_encoded_record_batch sampleMsg).2 = none ∧
    (wFinished.write_encoded_record_batch sampleMsg).1.sink ≠ wFinished.sink ∧
    (wFinished.write_encoded_record_batch sampleMsg).1.record_blocks ≠
      wFinished.record_blocks := by decide

/-- C1 witness: the amended guard theorem applied at the concrete
finished writer (for `start`) and the concrete fresh writer (for
`finish`). -/
theorem c1_witness :
    wFinished.start = (wFinished, some (PolarsError.oos oosStartMsg)) ∧
    w0.finish = (w0, some (PolarsError.oos oosFinishMsg)) :=
  ⟨(c1_lifecycle_guards wFinished).1 (by decide),
   ((c1_lifecycle_guards w0).2.1 (by decide)).2.2⟩

/-- C7 counterexample: after `start`, `set_custom_schema_metadata` is
silently accepted — it stores the metadata, writes nothing to the sink,
and has no error channel at all — rather than failing with an error. -/
theorem c7_counterexample :
    wStarted.state = State.Started ∧
    (wStarted.set_custom_schema_metadata sampleMetadata).custom_schema_metadata =
      some sampleMetadata ∧
    (wStarted.set_custom_schema_metadata sampleMetadata).sink = wStarted.sink := by
  decide

/-- C7 (amended): `set_custom_schema_metadata` performs no lifecycle
check and cannot fail: in every state it unconditionally stores the
given metadata — which `finish` will embed into the footer's schema —
and changes nothing else about the writer; the "call it before start"
rule is documentation only, not enforced. -/
theorem c7_set_metadata_unchecked (w : FileWriter) (md : Metadata) :
    (w.set_custom_schema_metadata md).custom_schema_metadata = some md ∧
    (w.set_custom_schema_metadata md).sink = w.sink ∧
    (w.set_custom_schema_metadata md).state = w.state ∧
    (w.set_custom_schema_metadata md).block_offsets = w.block_offsets ∧
    (w.set_custom_schema_metadata md).dictionary_blocks = w.dictionary_blocks ∧
    (w.set_custom_schema_metadata md).record_blocks = w.record_blocks ∧
    (footerOf (w.set_custom_schema_metadata md)).schema =
      some (serialize_schema w.schema w.ipc_fields (some md)) := by
  simp [FileWriter.set_custom_schema_metadata, footerOf]

/-- C4: `start` in the NotStarted state writes the magic token, two pad
bytes (reaching an 8-byte boundary), then the schema — serialized with
no embedded custom metadata — framed as a message; it advances the
state to Started and adds the framed schema message's byte count plus 8
to RunningOffset. -/
theorem c4_start_spec (w : FileWriter) (h : w.state = State.None) :
    w.start =
      ({ w with
          sink := w.sink ++ ARROW_MAGIC_V2 ++ [0, 0] ++
            writeMessageBytes (schemaMessage w)
          block_offsets := w.block_offsets +
            ((writeMessageBytes (schemaMessage w)).length + 8)
          state := State.Started }, none) ∧
    (ARROW_MAGIC_V2 ++ [0, 0]).length % 8 = 0 ∧
    (schemaMessage w).ipc_message = schema_to_bytes w.schema w.ipc_fields none :=
  ⟨start_ok w h, by decide, rfl⟩

/-- C4 witness: the `start` specification applied at the concrete fresh
writer. -/
theorem c4_witness :
    w0.state = State.None ∧
    w0.start =
      ({ w0 with
          sink := w0.sink ++ ARROW_MAGIC_V2 ++ [0, 0] ++
            writeMessageBytes (schemaMessage w0)
          block_offsets := w0.block_offsets +
            ((writeMessageBytes (schemaMessage w0)).length + 8)
          state := State.Started }, none) :=
  ⟨by decide, (c4_start_spec w0 (by decide)).1⟩

theorem writeDictLoop_spec (ds : List EncodedData) : ∀ w : FileWriter,
    writeDictLoop w ds =
      { w with
          sink := w.sink ++ framedConcat ds
          dictionary_blocks := w.dictionary_blocks ++ dictBlocksSpec w.block_offsets ds
          block_offsets := w.block_offsets + totalFramedSize ds } := by
  induction ds with
  | nil =>
    intro w
    simp [writeDictLoop, framedConcat, dictBlocksSpec, totalFramedSize]
  | cons e rest ih =>
    intro w
    simp only [writeDictLoop]
    rw [ih]
    simp [framedConcat, dictBlocksSpec, totalFramedSize, framedSize,
      List.append_assoc, Nat.add_assoc]

theorem write_encoded_ok (w : FileWriter) (ds : List EncodedData)
    (m : EncodedData) (h : w.state = State.Started) :
    w.write_encoded ds m =
      ({ w with
          sink := w.sink ++ framedConcat ds ++ writeMessageBytes m
          dictionary_blocks := w.dictionary_blocks ++ dictBlocksSpec w.block_offsets ds
          record_blocks := w.record_blocks ++
            [⟨((w.block_offsets + totalFramedSize ds : Nat) : Int),
              (writeMessageMeta m : Int), (writeMessageData m : Int)⟩]
          block_offsets := w.block_offsets + totalFramedSize ds + framedSize m },
       none) := by
  unfold FileWriter.write_encoded
  rw [if_neg (by simp [h])]
  rw [writeDictLoop_spec]
  simp [FileWriter.write_encoded_record_batch, framedSize,
    List.append_assoc, Nat.add_assoc]

/-- C2: `write_encoded` in the Started state frames each dictionary
message in list order — appending, for each, a dictionary Block carrying
the RunningOffset current at its framing and the frame's metadata and
body sizes, and advancing RunningOffset by the frame's total size — and
then frames the record message and appends a record Block the same
way. -/
theorem c2_write_encoded_spec (w : FileWriter) (ds : List EncodedData)
    (m : EncodedData) (h : w.state = State.Started) :
    w.write_encoded ds m =
      ({ w with
          sink := w.sink ++ framedConcat ds ++ writeMessageBytes m
          dictionary_blocks := w.dictionary_blocks ++ dictBlocksSpec w.block_offsets ds
          record_blocks := w.record_blocks ++
            [⟨((w.block_offsets + totalFramedSize ds : Nat) : Int),
              (writeMessageMeta m : Int), (writeMessageData m : Int)⟩]
          block_offsets := w.block_offsets + totalFramedSize ds + framedSize m },
       none) :=
  write_encoded_ok w ds m h

/-- C2 witness: the `write_encoded` specification applied at the
concrete started writer with one dictionary message and one record
message. -/
theorem c2_witness :
    wStarted.state = State.Started ∧
    wStarted.write_encoded [sampleDict] sampleMsg =
      ({ wStarted with
          sink := wStarted.sink ++ framedConcat [sampleDict] ++
            writeMessageBytes sampleMsg
          dictionary_blocks := wStarted.dictionary_blocks ++
            dictBlocksSpec wStarted.block_offsets [sampleDict]
          record_blocks := wStarted.record_blocks ++
            [⟨((wStarted.block_offsets + totalFramedSize [sampleDict] : Nat) : Int),
              (writeMessageMeta sampleMsg : Int), (writeMessageData sampleMsg : Int)⟩]
          block_offsets := wStarted.block_offsets +
            totalFramedSize [sampleDict] + framedSize sampleMsg }, none) :=
  ⟨by decide, c2_write_encoded_spec wStarted [sampleDict] sampleMsg (by decide)⟩

theorem finish_ok (w : FileWriter) (h : w.state = State.Started) :
    w.finish =
      ({ w with
          sink := w.sink ++ write_continuation 0 ++ encodeFooter (footerOf w) ++
            le32 (encodeFooter (footerOf w)).length ++ ARROW_MAGIC_V2
          dictionary_blocks := []
          record_blocks := []
          state := State.Finished }, none) := by
  unfold FileWriter.finish
  rw [if_neg (by simp [h])]

/-- C3: `finish` in the Started state writes, in order, the zero-valued
continuation frame, the footer bytes produced by the table encoder from
the footer assembled out of the schema, custom metadata and the two
accumulated block tables, the footer length as the 4-byte little-endian
encoding of exactly the encoder's byte count, and the magic token; it
then marks the writer Finished, and a second `finish` fails with the
sequencing error. -/
theorem c3_finish_spec (w : FileWriter) (h : w.state = State.Started) :
    w.finish =
      ({ w with
          sink := w.sink ++ write_continuation 0 ++ encodeFooter (footerOf w) ++
            le32 (encodeFooter (footerOf w)).length ++ ARROW_MAGIC_V2
          dictionary_blocks := []
          record_blocks := []
          state := State.Finished }, none) ∧
    footerOf w =
      { version := metadataVersionV5
        schema := some (serialize_schema w.schema w.ipc_fields w.custom_schema_metadata)
        dictionaries := some w.dictionary_blocks
        record_batches := some w.record_blocks
        custom_metadata := none } ∧
    write_continuation 0 = [0, 0, 0, 0] ∧
    ((w.finish).1).finish = ((w.finish).1, some (PolarsError.oos oosFinishMsg)) := by
  refine ⟨finish_ok w h, rfl, rfl, ?_⟩
  rw [finish_ok w h]
  simp [FileWriter.finish]

/-- C3 witness: the `finish` specification applied at the concrete
started writer. -/
theorem c3_witness :
    wStarted.state = State.Started ∧
    wStarted.finish =
      ({ wStarted with
          sink := wStarted.sink ++ write_continuation 0 ++
            encodeFooter (footerOf wStarted) ++
            le32 (encodeFooter (footerOf wStarted)).length ++ ARROW_MAGIC_V2
          dictionary_blocks := []
          record_blocks := []
          state := State.Finished }, none) :=
  ⟨by decide, (c3_finish_spec wStarted (by decide)).1⟩

theorem write_guard (w : FileWriter) (c : Chunk) (f : Option (List IpcField))
    (h : w.state ≠ State.Started) :
    w.write c f = (w, some (PolarsError.oos oosWriteMsg)) := by
  simp [FileWriter.write, h]

theorem write_err (w : FileWriter) (c : Chunk) (f : Option (List IpcField))
    (ds : List EncodedData) (rec : EncodedData) (tr : DictionaryTracker)
    (e : PolarsError) (h : w.state = State.Started)
    (hE : encode_chunk_amortized c (f.getD w.ipc_fields) w.dictionary_tracker
            w.options = (ds, rec, tr, some e)) :
    w.write c f = ({ w with dictionary_tracker := tr }, some e) := by
  simp [FileWriter.write, h, hE]

theorem write_ok (w : FileWriter) (c : Chunk) (f : Option (List IpcField))
    (ds : List EncodedData) (rec : EncodedData) (tr : DictionaryTracker)
    (h : w.state = State.Started)
    (hE : encode_chunk_amortized c (f.getD w.ipc_fields) w.dictionary_tracker
            w.options = (ds, rec, tr, none)) :
    w.write c f =
      ({ w with
          sink := w.sink ++ framedConcat ds ++ writeMessageBytes rec
          dictionary_blocks := w.dictionary_blocks ++ dictBlocksSpec w.block_offsets ds
          record_blocks := w.record_blocks ++
            [⟨((w.block_offsets + totalFramedSize ds : Nat) : Int),
              (writeMessageMeta rec : Int), (writeMessageData rec : Int)⟩]
          block_offsets := w.block_offsets + totalFramedSize ds + framedSize rec
          dictionary_tracker := tr
          encoded_message := rec }, none) := by
  unfold FileWriter.write
  rw [if_neg (by simp [h])]
  dsimp only
  rw [hE]
  dsimp only
  have h1 := write_encoded_ok { w with dictionary_tracker := tr, encoded_message := EncodedData.empty } ds rec h
  rw [h1]

theorem applyOp_offsets_mono (w : FileWriter) (op : Op) :
    w.block_offsets ≤ ((applyOp w op).1).block_offsets := by
  cases op with
  | start =>
    by_cases h : w.state = State.None
    · rw [show applyOp w Op.start = w.start from rfl, start_ok w h]
      simp
    · simp [applyOp, FileWriter.start, h]
  | write c f =>
    show w.block_offsets ≤ ((w.write c f).1).block_offsets
    by_cases h : w.state = State.Started
    · rcases hE : encode_chunk_amortized c (f.getD w.ipc_fields) w.dictionary_tracker
        w.options with ⟨ds, rec, tr, err⟩
      cases err with
      | some e => rw [write_err w c f ds rec tr e h hE]
      | none => rw [write_ok w c f ds rec tr h hE]; simp; omega
    · rw [write_guard w c f h]
  | writeEncoded ds m =>
    show w.block_offsets ≤ ((w.write_encoded ds m).1).block_offsets
    by_cases h : w.state = State.Started
    · rw [write_encoded_ok w ds m h]; simp; omega
    · simp [FileWriter.write_encoded, h]
  | writeEncodedRecordBatch m =>
    simp [applyOp, FileWriter.write_encoded_record_batch]
  | finish =>
    show w.block_offsets ≤ ((w.finish).1).block_offsets
    by_cases h : w.state = State.Started
    · rw [finish_ok w h]
    · simp [FileWriter.finish, h]
  | setCustomSchemaMetadata md => simp [applyOp, FileWriter.set_custom_schema_metadata]
  | getScratches => simp [applyOp, FileWriter.get_scratches]
  | setScratches e => simp [applyOp, FileWriter.set_scratches]

theorem applyOp_offsetInv (w : FileWriter) (op : Op) (h1 : OffsetInv w)
    (h2 : op ≠ Op.finish) : OffsetInv ((applyOp w op).1) := by
  unfold OffsetInv at h1
  cases op with
  | start =>
    by_cases h : w.state = State.None
    · rw [show applyOp w Op.start = w.start from rfl, start_ok w h]
      simp [OffsetInv, ARROW_MAGIC_V2]
      omega
    · simpa [applyOp, FileWriter.start, h, OffsetInv] using h1
  | write c f =>
    show OffsetInv ((w.write c f).1)
    by_cases h : w.state = State.Started
    · rcases hE : encode_chunk_amortized c (f.getD w.ipc_fields) w.dictionary_tracker
        w.options with ⟨ds, rec, tr, err⟩
      cases err with
      | some e => rw [write_err w c f ds rec tr e h hE]; simpa [OffsetInv] using h1
      | none =>
        rw [write_ok w c f ds rec tr h hE]
        simp [OffsetInv, framedConcat_length, writeMessageBytes_length, framedSize]
        omega
    · rw [write_guard w c f h]; simpa [OffsetInv] using h1
  | writeEncoded ds m =>
    show OffsetInv ((w.write_encoded ds m).1)
    by_cases h : w.state = State.Started
    · rw [write_encoded_ok w ds m h]
      simp [OffsetInv, framedConcat_length, writeMessageBytes_length, framedSize]
      omega
    · simpa [FileWriter.write_encoded, h, OffsetInv] using h1
  | writeEncodedRecordBatch m =>
    simp [applyOp, FileWriter.write_encoded_record_batch, OffsetInv,
      writeMessageBytes_length]
    omega
  | finish => exact absurd rfl h2
  | setCustomSchemaMetadata md =>
    simpa [applyOp, FileWriter.set_custom_schema_metadata, OffsetInv] using h1
  | getScratches =>
    simpa [applyOp, FileWriter.get_scratches, OffsetInv] using h1
  | setScratches e =>
    simpa [applyOp, FileWriter.set_scratches, OffsetInv] using h1

/-- C5 (amended): RunningOffset never decreases under any operation; a
fresh writer over an empty sink satisfies `RunningOffset = bytes
written`, and every operation other than `finish` preserves that
equality (`finish` writes the trailer — continuation marker, footer,
length, magic — without advancing RunningOffset, so the equality breaks
there); each Block appended to either table records as its offset the
RunningOffset current just before its message was framed. -/
theorem c5_running_offset (w : FileWriter) (op : Op) :
    w.block_offsets ≤ ((applyOp w op).1).block_offsets ∧
    (∀ sch f opts, OffsetInv (FileWriter.new [] sch f opts)) ∧
    (OffsetInv w → op ≠ Op.finish → OffsetInv ((applyOp w op).1)) ∧
    (∀ m, ((w.write_encoded_record_batch m).1).record_blocks =
        w.record_blocks ++
          [⟨(w.block_offsets : Int), (writeMessageMeta m : Int),
            (writeMessageData m : Int)⟩]) ∧
    (∀ ds m, w.state = State.Started →
        ((w.write_encoded ds m).1).dictionary_blocks =
          w.dictionary_blocks ++ dictBlocksSpec w.block_offsets ds) := by
  refine ⟨applyOp_offsets_mono w op, fun sch f opts => ?_,
    fun h1 h2 => applyOp_offsetInv w op h1 h2, fun m => ?_, fun ds m h => ?_⟩
  · simp [OffsetInv, FileWriter.new]
  · simp [FileWriter.write_encoded_record_batch]
  · rw [write_encoded_ok w ds m h]

/-- C5 counterexample: `finish` completes without error on the concrete
started writer, yet afterwards RunningOffset no longer equals the total
bytes written to the sink — the trailer bytes are not counted. -/
theorem c5_counterexample :
    (wStarted.finish).2 = none ∧
    wFinished.block_offsets ≠ wFinished.sink.length ∧
    wStarted.block_offsets = wStarted.sink.length := by decide

/-- C5 witness: the offset theorem applied at the concrete fresh writer
and the `start` operation. -/
theorem c5_witness :
    OffsetInv w0 ∧ OffsetInv ((applyOp w0 Op.start).1) :=
  have h0 : OffsetInv w0 := by unfold OffsetInv; decide
  ⟨h0, (c5_running_offset w0 Op.start).2.2.1 h0 (by decide)⟩

theorem blocksInvT_nil (cur : Nat) : BlocksInvT [] [] cur := by
  refine ⟨⟨?_, List.Pairwise.nil, List.Pairwise.nil, ?_⟩, ?_⟩ <;> simp [BoundT]

theorem offset_lt_cur (dict rec : List Block) (cur : Nat)
    (hbound : BoundT dict rec cur) (b : Block) (hb : b ∈ dict ++ rec) :
    b.offset < (cur : Int) := by
  obtain ⟨h1, h2, h3⟩ := hbound b hb
  unfold blockEnd at h3
  omega

theorem blocksInvT_mono (dict rec : List Block) (cur cur2 : Nat)
    (h : BlocksInvT dict rec cur) (hc : cur ≤ cur2) : BlocksInvT dict rec cur2 := by
  obtain ⟨hsep, hbound⟩ := h
  refine ⟨hsep, fun b hb => ?_⟩
  obtain ⟨h1, h2, h3⟩ := hbound b hb
  refine ⟨h1, h2, ?_⟩
  have : (cur : Int) ≤ (cur2 : Int) := by exact_mod_cast hc
  omega

theorem blocksInvT_push_rec (dict rec : List Block) (cur meta data : Nat)
    (h : BlocksInvT dict rec cur) (hm : 0 < meta) :
    BlocksInvT dict (rec ++ [⟨(cur : Int), (meta : Int), (data : Int)⟩])
      (cur + (meta + data)) := by
  obtain ⟨⟨hsep, hdp, hrp, hx⟩, hbound⟩ := h
  have hlt : ∀ b ∈ dict ++ rec, b.offset < (cur : Int) :=
    fun b hb => offset_lt_cur dict rec cur hbound b hb
  have hend : ∀ b ∈ dict ++ rec, blockEnd b ≤ (cur : Int) :=
    fun b hb => (hbound b hb).2.2
  refine ⟨⟨?_, hdp, ?_, ?_⟩, ?_⟩
  · intro b1 hb1 b2 hb2 h12
    simp only [List.mem_append, List.mem_singleton] at hb1 hb2
    rcases hb1 with hb1 | (hb1 | hb1) <;> rcases hb2 with hb2 | (hb2 | hb2)
    · exact hsep b1 (by simp [hb1]) b2 (by simp [hb2]) h12
    · exact hsep b1 (by simp [hb1]) b2 (by simp [hb2]) h12
    · subst hb2; exact hend b1 (by simp [hb1])
    · exact hsep b1 (by simp [hb1]) b2 (by simp [hb2]) h12
    · exact hsep b1 (by simp [hb1]) b2 (by simp [hb2]) h12
    · subst hb2; exact hend b1 (by simp [hb1])
    · subst hb1; have := hlt b2 (by simp [hb2]); simp only [] at h12; omega
    · subst hb1; have := hlt b2 (by simp [hb2]); simp only [] at h12; omega
    · subst hb1; subst hb2; simp at h12
  · refine List.pairwise_append.mpr ⟨hrp, by simp, ?_⟩
    intro a ha b hb
    simp only [List.mem_singleton] at hb
    subst hb
    exact hlt a (by simp [ha])
  · intro b1 hb1 b2 hb2
    simp only [List.mem_append, List.mem_singleton] at hb2
    rcases hb2 with hb2 | hb2
    · exact hx b1 hb1 b2 hb2
    · subst hb2
      have := hlt b1 (by simp [hb1])
      simp only []
      omega
  · intro b hb
    simp only [List.mem_append, List.mem_singleton] at hb
    rcases hb with hb | (hb | hb)
    · obtain ⟨h1, h2, h3⟩ := hbound b (by simp [hb])
      exact ⟨h1, h2, by omega⟩
    · obtain ⟨h1, h2, h3⟩ := hbound b (by simp [hb])
      exact ⟨h1, h2, by omega⟩
    · subst hb
      unfold blockEnd
      refine ⟨by simp only []; omega, by simp only []; omega, by simp only []; omega⟩

theorem blocksInvT_push_dict (dict rec : List Block) (cur meta data : Nat)
    (h : BlocksInvT dict rec cur) (hm : 0 < meta) :
    BlocksInvT (dict ++ [⟨(cur : Int), (meta : Int), (data : Int)⟩]) rec
      (cur + (meta + data)) := by
  obtain ⟨⟨hsep, hdp, hrp, hx⟩, hbound⟩ := h
  have hlt : ∀ b ∈ dict ++ rec, b.offset < (cur : Int) :=
    fun b hb => offset_lt_cur dict rec cur hbound b hb
  have hend : ∀ b ∈ dict ++ rec, blockEnd b ≤ (cur : Int) :=
    fun b hb => (hbound b hb).2.2
  refine ⟨⟨?_, ?_, hrp, ?_⟩, ?_⟩
  · intro b1 hb1 b2 hb2 h12
    simp only [List.mem_append, List.mem_singleton] at hb1 hb2
    rcases hb1 with (hb1 | hb1) | hb1 <;> rcases hb2 with (hb2 | hb2) | hb2
    · exact hsep b1 (by simp [hb1]) b2 (by simp [hb2]) h12
    · subst hb2; exact hend b1 (by simp [hb1])
    · exact hsep b1 (by simp [hb1]) b2 (by simp [hb2]) h12
    · subst hb1; have := hlt b2 (by simp [hb2]); simp only [] at h12; omega
    · subst hb1; subst hb2; simp at h12
    · subst hb1; have := hlt b2 (by simp [hb2]); simp only [] at h12; omega
    · exact hsep b1 (by simp [hb1]) b2 (by simp [hb2]) h12
    · subst hb2; exact hend b1 (by simp [hb1])
    · exact hsep b1 (by simp [hb1]) b2 (by simp [hb2]) h12
  · refine List.pairwise_append.mpr ⟨hdp, by simp, ?_⟩
    intro a ha b hb
    simp only [List.mem_singleton] at hb
    subst hb
    exact hlt a (by simp [ha])
  · intro b1 hb1 b2 hb2
    simp only [List.mem_append, List.mem_singleton] at hb1
    rcases hb1 with hb1 | hb1
    · exact hx b1 hb1 b2 hb2
    · subst hb1
      have := hlt b2 (by simp [hb2])
      simp only []
      omega
  · intro b hb
    simp only [List.mem_append, List.mem_singleton] at hb
    rcases hb with (hb | hb) | hb
    · obtain ⟨h1, h2, h3⟩ := hbound b (by simp [hb])
      exact ⟨h1, h2, by omega⟩
    · subst hb
      unfold blockEnd
      refine ⟨by simp only []; omega, by simp only []; omega, by simp only []; omega⟩
    · obtain ⟨h1, h2, h3⟩ := hbound b (by simp [hb])
      exact ⟨h1, h2, by omega⟩

theorem blocksInv_record_batch (w : FileWriter) (m : EncodedData)
    (h : BlocksInv w) : BlocksInv ((w.write_encoded_record_batch m).1) :=
  blocksInvT_push_rec w.dictionary_blocks w.record_blocks w.block_offsets
    (writeMessageMeta m) (writeMessageData m) h (writeMessageMeta_pos m)

theorem blocksInv_dictLoop (ds : List EncodedData) : ∀ w : FileWriter,
    BlocksInv w → BlocksInv (writeDictLoop w ds) := by
  induction ds with
  | nil => intro w h; exact h
  | cons e rest ih =>
    intro w h
    show BlocksInv (writeDictLoop _ rest)
    exact ih _ (blocksInvT_push_dict w.dictionary_blocks w.record_blocks
      w.block_offsets (writeMessageMeta e) (writeMessageData e) h
      (writeMessageMeta_pos e))

theorem blocksInv_write_encoded (w : FileWriter) (ds : List EncodedData)
    (m : EncodedData) (h : BlocksInv w) :
    BlocksInv ((w.write_encoded ds m).1) := by
  unfold FileWriter.write_encoded
  by_cases hs : w.state = State.Started
  · rw [if_neg (by simp [hs])]
    exact blocksInv_record_batch _ m (blocksInv_dictLoop ds w h)
  · rw [if_pos (by simp [hs])]
    exact h

theorem blocksInv_applyOp (w : FileWriter) (op : Op) (h : BlocksInv w) :
    BlocksInv ((applyOp w op).1) := by
  cases op with
  | start =>
    show BlocksInv ((w.start).1)
    by_cases hs : w.state = State.None
    · rw [start_ok w hs]
      exact blocksInvT_mono w.dictionary_blocks w.record_blocks w.block_offsets
        (w.block_offsets + ((writeMessageBytes (schemaMessage w)).length + 8)) h
        (by omega)
    · unfold FileWriter.start
      rw [if_pos (by simp [hs])]
      exact h
  | write c f =>
    show BlocksInv ((w.write c f).1)
    by_cases hs : w.state = State.Started
    · rcases hE : encode_chunk_amortized c (f.getD w.ipc_fields) w.dictionary_tracker
        w.options with ⟨ds, rec, tr, err⟩
      cases err with
      | some e => rw [write_err w c f ds rec tr e hs hE]; exact h
      | none =>
        rw [write_ok w c f ds rec tr hs hE]
        have h2 := blocksInv_write_encoded
          { w with dictionary_tracker := tr, encoded_message := EncodedData.empty }
          ds rec h
        have h3 := write_encoded_ok { w with dictionary_tracker := tr, encoded_message := EncodedData.empty } ds rec hs
        rw [h3] at h2
        exact h2
    · rw [write_guard w c f hs]; exact h
  | writeEncoded ds m => exact blocksInv_write_encoded w ds m h
  | writeEncodedRecordBatch m => exact blocksInv_record_batch w m h
  | finish =>
    show BlocksInv ((w.finish).1)
    by_cases hs : w.state = State.Started
    · rw [finish_ok w hs]
      exact blocksInvT_nil w.block_offsets
    · unfold FileWriter.finish
      rw [if_pos (by simp [hs])]
      exact h
  | setCustomSchemaMetadata md => exact h
  | getScratches => exact h
  | setScratches e => exact h

theorem blocksInv_run (ops : List Op) : ∀ w : FileWriter,
    BlocksInv w → BlocksInv (run w ops) := by
  induction ops with
  | nil => intro w h; exact h
  | cons op rest ih =>
    intro w h
    exact ih _ (blocksInv_applyOp w op h)

theorem blocksInv_new (sink : List Nat) (sch : Schema)
    (f : Option (List IpcField)) (opts : WriteOptions) :
    BlocksInv (FileWriter.new sink sch f opts) :=
  blocksInvT_nil 0

/-- C6: in every writer reachable from a fresh one by any sequence of
operations — in particular the writer whose tables `finish` places into
the footer of a completed file — the blocks of the two block tables do
not overlap: any two blocks with ordered offsets satisfy
`offset + metadata_length + body_length ≤ next offset`, each table is
strictly increasing in offset (its write order), and the two tables
share no offset, so in the interleaved write order the offsets are
strictly increasing. -/
theorem c6_blocks_separated (sch : Schema) (f : Option (List IpcField))
    (opts : WriteOptions) (ops : List Op) :
    BlocksSeparated (run (FileWriter.new [] sch f opts) ops) ∧
    (footerOf (run (FileWriter.new [] sch f opts) ops)).dictionaries =
      some ((run (FileWriter.new [] sch f opts) ops).dictionary_blocks) ∧
    (footerOf (run (FileWriter.new [] sch f opts) ops)).record_batches =
      some ((run (FileWriter.new [] sch f opts) ops).record_blocks) :=
  ⟨(blocksInv_run ops (FileWriter.new [] sch f opts)
      (blocksInv_new [] sch f opts)).1, rfl, rfl⟩

/-- C8: the schema message `start` emits embeds no custom metadata — it
is `schema_to_bytes` applied with `none`, and the bytes `start` writes
are invariant under any change of the writer's custom metadata — while
the footer `finish` assembles carries the writer's custom schema
metadata inside its serialized schema. -/
theorem c8_metadata_in_footer_not_schema (w : FileWriter) (md : Metadata)
    (h : w.custom_schema_metadata = some md) :
    (footerOf w).schema = some (serialize_schema w.schema w.ipc_fields (some md)) ∧
    (serialize_schema w.schema w.ipc_fields (some md)).custom_metadata = some md ∧
    (∀ md2 : Option Metadata,
      ((({ w with custom_schema_metadata := md2 }).start).1).sink =
        ((w.start).1).sink) ∧
    (w.state = State.None →
      ((w.start).1).sink =
        w.sink ++ ARROW_MAGIC_V2 ++ [0, 0] ++
          writeMessageBytes ⟨schema_to_bytes w.schema w.ipc_fields none, []⟩) := by
  refine ⟨by simp [footerOf, h], rfl, fun md2 => ?_, fun hs => ?_⟩
  · by_cases hs : w.state = State.None
    · have hs2 : ({ w with custom_schema_metadata := md2 } : FileWriter).state = State.None := hs
      have h4 := start_ok { w with custom_schema_metadata := md2 } hs2
      rw [start_ok w hs, h4]
      simp [schemaMessage]
    · have hs2 : ¬ ({ w with custom_schema_metadata := md2 } : FileWriter).state = State.None := hs
      unfold FileWriter.start
      rw [if_pos (by simp [hs]), if_pos (by simp [hs2])]
  · rw [start_ok w hs]
    simp [schemaMessage]

/-- C8 witness: the metadata-flow theorem applied at the concrete fresh
writer carrying custom metadata. -/
theorem c8_witness :
    wMeta.custom_schema_metadata = some sampleMetadata ∧
    (footerOf wMeta).schema =
      some (serialize_schema wMeta.schema wMeta.ipc_fields (some sampleMetadata)) :=
  ⟨by decide, (c8_metadata_in_footer_not_schema wMeta sampleMetadata (by decide)).1⟩

theorem eqExceptScratch_iff (w w' : FileWriter) :
    eqExceptScratch w w' ↔
      (w.sink = w'.sink ∧ w.options = w'.options ∧ w.schema = w'.schema ∧
       w.ipc_fields = w'.ipc_fields ∧ w.block_offsets = w'.block_offsets ∧
       w.dictionary_blocks = w'.dictionary_blocks ∧
       w.record_blocks = w'.record_blocks ∧ w.state = w'.state ∧
       w.dictionary_tracker = w'.dictionary_tracker ∧
       w.custom_schema_metadata = w'.custom_schema_metadata) := by
  cases w; cases w'
  simp [eqExceptScratch, FileWriter.mk.injEq]

theorem applyOp_scratch_agnostic (op : Op) : ∀ w w' : FileWriter,
    eqExceptScratch w w' →
    eqExceptScratch ((applyOp w op).1) ((applyOp w' op).1) ∧
    (applyOp w op).2 = (applyOp w' op).2 := by
  intro w w' h
  obtain ⟨s, o, sch, ipcf, bo, db, rb, st, tr, e, md⟩ := w
  obtain ⟨s2, o2, sch2, ipcf2, bo2, db2, rb2, st2, tr2, e2, md2⟩ := w'
  obtain ⟨h1, h2, h3, h4, h5, h6, h7, h8, h9, h10⟩ := (eqExceptScratch_iff _ _).mp h
  subst h1; subst h2; subst h3; subst h4; subst h5; subst h6; subst h7
  subst h8; subst h9; subst h10
  cases op with
  | start =>
    simp only [applyOp]
    by_cases hs : st = State.None
    · constructor
      · refine (eqExceptScratch_iff _ _).mpr ?_
        simp [FileWriter.start, hs, schemaMessage]
      · simp [FileWriter.start, hs]
    · constructor
      · simpa [FileWriter.start, hs] using h
      · simp [FileWriter.start, hs]
  | write c f =>
    simp only [applyOp]
    by_cases hs : st = State.Started
    · rcases hE : encode_chunk_amortized c (f.getD ipcf) tr o with ⟨ds, rec, trk, err⟩
      cases err with
      | some er =>
        constructor
        · refine (eqExceptScratch_iff _ _).mpr ?_
          simp [FileWriter.write, hs, hE]
        · simp [FileWriter.write, hs, hE]
      | none =>
        constructor
        · refine (eqExceptScratch_iff _ _).mpr ?_
          simp [FileWriter.write, hs, hE, FileWriter.write_encoded,
            writeDictLoop_spec, FileWriter.write_encoded_record_batch]
        · simp [FileWriter.write, hs, hE, FileWriter.write_encoded,
            writeDictLoop_spec, FileWriter.write_encoded_record_batch]
    · constructor
      · simpa [FileWriter.write, hs] using h
      · simp [FileWriter.write, hs]
  | writeEncoded ds m =>
    simp only [applyOp]
    by_cases hs : st = State.Started
    · constructor
      · refine (eqExceptScratch_iff _ _).mpr ?_
        simp [FileWriter.write_encoded, hs, writeDictLoop_spec,
          FileWriter.write_encoded_record_batch]
      · simp [FileWriter.write_encoded, hs, writeDictLoop_spec,
          FileWriter.write_encoded_record_batch]
    · constructor
      · simpa [FileWriter.write_encoded, hs] using h
      · simp [FileWriter.write_encoded, hs]
  | writeEncodedRecordBatch m =>
    constructor
    · refine (eqExceptScratch_iff _ _).mpr ?_
      simp [applyOp, FileWriter.write_encoded_record_batch]
    · simp [applyOp, FileWriter.write_encoded_record_batch]
  | finish =>
    simp only [applyOp]
    by_cases hs : st = State.Started
    · constructor
      · refine (eqExceptScratch_iff _ _).mpr ?_
        simp [FileWriter.finish, hs, footerOf]
      · simp [FileWriter.finish, hs]
    · constructor
      · simpa [FileWriter.finish, hs] using h
      · simp [FileWriter.finish, hs]
  | setCustomSchemaMetadata md3 =>
    constructor
    · refine (eqExceptScratch_iff _ _).mpr ?_
      simp [applyOp, FileWriter.set_custom_schema_metadata]
    · simp [applyOp, FileWriter.set_custom_schema_metadata]
  | getScratches =>
    constructor
    · refine (eqExceptScratch_iff _ _).mpr ?_
      simp [applyOp, FileWriter.get_scratches]
    · simp [applyOp, FileWriter.get_scratches]
  | setScratches e3 =>
    constructor
    · refine (eqExceptScratch_iff _ _).mpr ?_
      simp [applyOp, FileWriter.set_scratches]
    · simp [applyOp, FileWriter.set_scratches]

theorem run_scratch_agnostic (ops : List Op) : ∀ w w' : FileWriter,
    eqExceptScratch w w' → eqExceptScratch (run w ops) (run w' ops) := by
  induction ops with
  | nil => intro w w' h; exact h
  | cons op rest ih =>
    intro w w' h
    exact ih _ _ (applyOp_scratch_agnostic op w w' h).1

theorem eqExceptScratch_sink (w w' : FileWriter) (h : eqExceptScratch w w') :
    w.sink = w'.sink :=
  ((eqExceptScratch_iff w w').mp h).1

theorem set_scratches_eqExceptScratch (w : FileWriter) (e : EncodedData) :
    eqExceptScratch (w.set_scratches e) w := by
  cases w
  simp [FileWriter.set_scratches, eqExceptScratch]

/-- C9: scratch-buffer transfer is invisible in the output — installing
any transferred scratch buffer before running any sequence of
operations yields a sink byte-for-byte identical to running them
without the transfer; `get_scratches` hands the caller exactly the
writer's buffer while leaving the writer holding the empty one, and
re-installing the taken buffer restores the writer exactly (the buffer
is moved, never duplicated). -/
theorem c9_scratch_transparent (w : FileWriter) (e : EncodedData) (ops : List Op) :
    (run (w.set_scratches e) ops).sink = (run w ops).sink ∧
    ((w.get_scratches).2).encoded_message = EncodedData.empty ∧
    (w.get_scratches).1 = w.encoded_message ∧
    ((w.get_scratches).2).set_scratches ((w.get_scratches).1) = w := by
  refine ⟨eqExceptScratch_sink _ _
    (run_scratch_agnostic ops _ _ (set_scratches_eqExceptScratch w e)), rfl, rfl, ?_⟩
  cases w
  simp [FileWriter.get_scratches, FileWriter.set_scratches]

theorem lookupDict_cons_ne (dicts : List (Nat × Nat)) (id id2 q : Nat)
    (h : id2 ≠ id) : lookupDict ((id2, q) :: dicts) id = lookupDict dicts id := by
  simp [lookupDict, List.find?_cons, h]

theorem emitDictionaries_policy_violation (id fp : Nat) :
    ∀ (cols : List Column) (dicts : List (Nat × Nat)) (fp2 : Nat),
      lookupDict dicts id = some fp2 → fp2 ≠ fp →
      (∃ c ∈ cols, c.dict = some (id, fp)) →
      (∀ c ∈ cols, ∀ q, c.dict = some (id, q) → q = fp) →
      (emitDictionaries true dicts cols).2.2 =
        some (PolarsError.invalidOperation dictPolicyErrMsg) := by
  intro cols
  induction cols with
  | nil =>
    intro dicts fp2 h1 h2 h3 h4
    simp at h3
  | cons col rest ih =>
    intro dicts fp2 h1 h2 h3 h4
    have h4r : ∀ c ∈ rest, ∀ q, c.dict = some (id, q) → q = fp :=
      fun c hc q hq => h4 c (List.mem_cons_of_mem _ hc) q hq
    rcases hcd : col.dict with _ | ⟨id2, q⟩
    · have h3r : ∃ c ∈ rest, c.dict = some (id, fp) := by
        rcases h3 with ⟨c, hc, hceq⟩
        rcases List.mem_cons.mp hc with rfl | hc2
        · rw [hcd] at hceq; simp at hceq
        · exact ⟨c, hc2, hceq⟩
      simp only [emitDictionaries, hcd]
      exact ih dicts fp2 h1 h2 h3r h4r
    · by_cases hid : id2 = id
      · subst hid
        have hq : q = fp := h4 col (List.mem_cons_self col rest) q hcd
        subst hq
        simp only [emitDictionaries, hcd, h1]
        rw [if_neg (by exact fun hcontra => h2 hcontra)]
        simp
      · have h3r : ∃ c ∈ rest, c.dict = some (id, fp) := by
          rcases h3 with ⟨c, hc, hceq⟩
          rcases List.mem_cons.mp hc with rfl | hc2
          · rw [hcd] at hceq
            simp at hceq
            exact absurd hceq.1 hid
          · exact ⟨c, hc2, hceq⟩
        simp only [emitDictionaries, hcd]
        rcases hl : lookupDict dicts id2 with _ | q2
        · simp only [hl]
          have h1b : lookupDict ((id2, q) :: dicts) id = some fp2 := by
            rw [lookupDict_cons_ne dicts id id2 q hid]; exact h1
          exact ih ((id2, q) :: dicts) fp2 h1b h2 h3r h4r
        · simp only [hl]
          by_cases hq2 : q2 = q
          · rw [if_pos hq2]
            exact ih dicts fp2 h1 h2 h3r h4r
          · rw [if_neg hq2]
            simp

theorem applyOp_cannot_replace (w : FileWriter) (op : Op) :
    ((applyOp w op).1).dictionary_tracker.cannot_replace =
      w.dictionary_tracker.cannot_replace := by
  cases op with
  | start =>
    show ((w.start).1).dictionary_tracker.cannot_replace = _
    by_cases hs : w.state = State.None
    · rw [start_ok w hs]
    · unfold FileWriter.start
      rw [if_pos (by simp [hs])]
  | write c f =>
    show ((w.write c f).1).dictionary_tracker.cannot_replace = _
    by_cases hs : w.state = State.Started
    · rcases hE : encode_chunk_amortized c (f.getD w.ipc_fields) w.dictionary_tracker
        w.options with ⟨ds, rec, trk, err⟩
      have htrk : trk.cannot_replace = w.dictionary_tracker.cannot_replace := by
        have := congrArg (fun p => p.2.2.1.cannot_replace) hE
        exact this.symm
      cases err with
      | some er => rw [write_err w c f ds rec trk er hs hE]; exact htrk
      | none => rw [write_ok w c f ds rec trk hs hE]; exact htrk
    · rw [write_guard w c f hs]
  | writeEncoded ds m =>
    show ((w.write_encoded ds m).1).dictionary_tracker.cannot_replace = _
    by_cases hs : w.state = State.Started
    · rw [write_encoded_ok w ds m hs]
    · unfold FileWriter.write_encoded
      rw [if_pos (by simp [hs])]
  | writeEncodedRecordBatch m => rfl
  | finish =>
    show ((w.finish).1).dictionary_tracker.cannot_replace = _
    by_cases hs : w.state = State.Started
    · rw [finish_ok w hs]
    · unfold FileWriter.finish
      rw [if_pos (by simp [hs])]
  | setCustomSchemaMetadata md => rfl
  | getScratches => rfl
  | setScratches e => rfl

/-- C10: both constructors build the tracker with `cannot_replace =
true`, every operation leaves the flag unchanged (so it is `true` in
every reachable state), and under that flag a `write` whose batch
carries a previously-seen dictionary id with changed content fails with
the dictionary-policy error. -/
theorem c10_cannot_replace (w : FileWriter) (op : Op) :
    (∀ sink sch f opts,
      (FileWriter.new sink sch f opts).dictionary_tracker.cannot_replace = true) ∧
    (∀ sink sch f opts,
      ((FileWriter.try_new sink sch f opts).1).dictionary_tracker.cannot_replace =
        true) ∧
    ((applyOp w op).1).dictionary_tracker.cannot_replace =
      w.dictionary_tracker.cannot_replace ∧
    (∀ id fp fp2 chunk f,
      w.state = State.Started →
      w.dictionary_tracker.cannot_replace = true →
      lookupDict w.dictionary_tracker.dictionaries id = some fp2 → fp2 ≠ fp →
      (∃ c ∈ chunk, c.dict = some (id, fp)) →
      (∀ c ∈ chunk, ∀ q, c.dict = some (id, q) → q = fp) →
      (w.write chunk f).2 =
        some (PolarsError.invalidOperation dictPolicyErrMsg)) := by
  refine ⟨fun sink sch f opts => rfl, fun sink sch f opts => ?_,
    applyOp_cannot_replace w op, fun id fp fp2 chunk f hs hc h1 h2 h3 h4 => ?_⟩
  · have := applyOp_cannot_replace (FileWriter.new sink sch f opts) Op.start
    exact this
  · have hfail := emitDictionaries_policy_violation id fp chunk
      w.dictionary_tracker.dictionaries fp2 h1 h2 h3 h4
    rcases hE : encode_chunk_amortized chunk (f.getD w.ipc_fields) w.dictionary_tracker
      w.options with ⟨ds, rec, trk, err⟩
    have herr : err = some (PolarsError.invalidOperation dictPolicyErrMsg) := by
      have := congrArg (fun p => p.2.2.2) hE
      simp only [] at this
      rw [← this]
      show (encode_chunk_amortized chunk (f.getD w.ipc_fields) w.dictionary_tracker
        w.options).2.2.2 = _
      unfold encode_chunk_amortized
      rw [hc]
      exact hfail
    subst herr
    rw [write_err w chunk f ds rec trk _ hs hE]

/-- C10 witness: the policy theorem applied at the concrete writer that
has already written dictionary id 1 with fingerprint 5, writing a batch
that reuses id 1 with fingerprint 6. -/
theorem c10_witness :
    (wDict.write sampleChunkDict6 none).2 =
      some (PolarsError.invalidOperation dictPolicyErrMsg) :=
  (c10_cannot_replace wDict Op.start).2.2.2 1 6 5 sampleChunkDict6 none
    (by decide) (by decide) (by decide) (by decide) (by decide)
    (by
      intro c hc q hq
      simp [sampleChunkDict6] at hc
      subst hc
      simp [sampleChunkDict6] at hq
      omega)

end ArrowIpcWrite
